import Mathlib

/-!
Verification development for the `remoteChromebook` cellular-automaton core
(`cellularGame/cell/cellNet.py` plus the `cell` module it builds on).

Python cells are heap objects linked by references (neighbors, ancestor,
descendant) and mutated in place, so the embedding uses an explicit store:
a cell is a record, a reference is an index (`CellId`) into the store, and
every operation threads the store.  Fallible operations (`list.pop()` on an
empty list, reading a `descendant` that is `None`) return `Option`.
-/


abbrev CellId := Nat

/-- State carried by a cell: the integer kind (`IntegerCell`) or the boolean
kind (`BooleanCell`). -/

inductive CellState where
  | intS (n : Int)
  | boolS (b : Bool)
deriving Repr, DecidableEq

/-- One automaton cell: identity label, state, generation number, neighbor
references, and the ancestor/descendant lineage links. -/

structure Cell where
  identity : String
  state : CellState
  generation : Nat
  neighbors : List CellId
  ancestor : Option CellId
  descendant : Option CellId
deriving Repr, DecidableEq

instance : Inhabited Cell :=
  ⟨{ identity := "", state := .intS 0, generation := 0, neighbors := [],
     ancestor := none, descendant := none }⟩

/-- The heap of cells; a `CellId` is an index into `cells`. -/
structure Store where
  cells : List Cell
deriving Repr, DecidableEq

def Store.size (σ : Store) : Nat := σ.cells.length

def Store.get (σ : Store) (i : CellId) : Cell := σ.cells.getD i default

def Store.set (σ : Store) (i : CellId) (c : Cell) : Store := ⟨σ.cells.set i c⟩

/-- Allocate a fresh cell at the end of the store; its id is the old size. -/
def Store.alloc (σ : Store) (c : Cell) : Store × CellId :=
  (⟨σ.cells ++ [c]⟩, σ.size)

-- Cell kinds and their regeneration rules ------------------------------------

/-- Integer value of a state (Python treats `True` as `1`). -/
def CellState.toInt : CellState → Int
  | .intS n => n
  | .boolS b => if b then 1 else 0

/-- Modelled from the spec: the per-kind regeneration rule of the missing
`cell` module (`cell.py` is not under `src/`; only its tests and callers are).
Integer kind: new state is the sum of the neighbor states at call time.
Boolean kind: toggle, ignoring neighbors.  (§4.1 `mutate`, §4.2, and
`testCell.py::testIntegerCell` / `testBooleanCell`.) -/

def ruleState (σ : Store) (c : Cell) : CellState :=
  match c.state with
  | .intS _ => .intS ((c.neighbors.map (fun n => ((σ.get n).state).toInt)).sum)
  | .boolS b => .boolS (!b)

/-- Modelled from the spec: `Cell.mutate()` of the missing `cell` module —
apply the regeneration rule to update `state` in place; touches no other
field (§4.1). -/

def mutate (σ : Store) (cid : CellId) : Store :=
  σ.set cid { σ.get cid with state := ruleState σ (σ.get cid) }

/-- Modelled from the spec: `Cell.clone(newIdentity?)` of the missing `cell`
module — a new cell of the same kind with `generation = self.generation + 1`,
`ancestor = self`, `descendant = None`, state copied, neighbors empty,
identity inherited unless overridden; side effect: `self.descendant` is set
to the new cell (§4.1).  Per §9 the source silently overwrites an existing
`descendant` link rather than rejecting a second derivation. -/

def clone (σ : Store) (cid : CellId) (newIdentity : Option String) :
    Store × CellId :=
  let c := σ.get cid
  let child : Cell :=
    { identity := newIdentity.getD c.identity
      state := c.state
      generation := c.generation + 1
      neighbors := []
      ancestor := some cid
      descendant := none }
  let σ1 := σ.set cid { c with descendant := some σ.size }
  σ1.alloc child

/-- Set `nid`'s neighbor list to `src`'s current neighbor list. -/
def wireNeighbors (σ : Store) (nid src : CellId) : Store :=
  σ.set nid { σ.get nid with neighbors := (σ.get src).neighbors }

/-- Modelled from the spec: `Cell.nextGen(newIdentity?)` of the missing `cell`
module — clone, wire the clone's neighbors to the ancestor's (pre-tick)
neighbors, then mutate the clone, so the descendant's state reflects the rule
applied against the pre-tick neighbor states (§4.1, §4.3 step 2; forced by
`testCell.py::testIntegerCell`, where `c4.nextGen` yields state 16 = the sum
of `c4`'s neighbors' states). -/

def nextGen (σ : Store) (cid : CellId) (newIdentity : Option String) :
    Store × CellId :=
  let p := clone σ cid newIdentity
  (mutate (wireNeighbors p.1 p.2 cid) p.2, p.2)

/-- Modelled from the spec: the `IntegerCell` constructor of the missing
`cell` module — generation 0, no neighbors, no lineage links. -/

def IntegerCell.make (σ : Store) (identity : String) (st : Int) :
    Store × CellId :=
  σ.alloc { identity := identity, state := .intS st, generation := 0,
            neighbors := [], ancestor := none, descendant := none }

def tickClones : Store → List CellId → Store × List CellId
  | σ, [] => (σ, [])
  | σ, cid :: rest =>
    let p := nextGen σ cid none
    let q := tickClones p.1 rest
    (q.1, p.2 :: q.2)

/-- Inductive characterization of the cloning phase on a list of distinct,
valid cell ids with valid neighbor references: the new ids are exactly
`σ.size, σ.size + 1, ...` in list order; each old cell keeps all its fields
except that its `descendant` now points at its fresh clone; each fresh clone
carries the ancestor's identity and neighbors, generation one higher, and a
state given by the regeneration rule evaluated against the PRE-tick store
`σ`; every cell not in the list is untouched. -/

def descList (σ : Store) : List CellId → Option (List CellId)
  | [] => some []
  | n :: ns =>
    match (σ.get n).descendant, descList σ ns with
    | some d, some ds => some (d :: ds)
    | _, _ => none

/-- One iteration of the rewiring loop of `CellNet.tick` (cellNet.py
lines 43-44): replace `nid`'s neighbor list by the descendants of its
current neighbors. -/

def rewireOne (σ : Store) (nid : CellId) : Option Store :=
  match descList σ (σ.get nid).neighbors with
  | none => none
  | some nbrs => some (σ.set nid { σ.get nid with neighbors := nbrs })

/-- The whole rewiring loop `for cell in newList: ...` of `CellNet.tick`. -/
def rewireAll : Store → List CellId → Option Store
  | σ, [] => some σ
  | σ, nid :: rest =>
    match rewireOne σ nid with
    | none => none
    | some σ1 => rewireAll σ1 rest

structure CellNet where
  cells : List CellId
  generation : Nat
deriving Repr, DecidableEq

/-- One iteration of the `while generations > 0` loop of `CellNet.tick`
(cellNet.py lines 38-47) for a flat-list net: flatten (identity), clone the
whole generation via `nextGen`, rewire every new cell's neighbors to the
descendants of its old neighbors, reassemble (identity), and bump the
generation counter.  The event-bus publish has no effect on the model
state. -/

def CellNet.tickOnce (net : CellNet) (σ : Store) : Option (Store × CellNet) :=
  let p := tickClones σ net.cells
  match rewireAll p.1 p.2 with
  | none => none
  | some σ2 => some (σ2, { cells := p.2, generation := net.generation + 1 })

/-- Embedding of `CellNet.tick(generations)` (cellNet.py line 36): the loop run
`generations` times. -/

def CellNet.tick (net : CellNet) (σ : Store) : Nat → Option (Store × CellNet)
  | 0 => some (σ, net)
  | g + 1 =>
    match net.tickOnce σ with
    | none => none
    | some q => q.2.tick q.1 g

/-- Well-formedness of a net over a store: distinct valid cell ids, all
sharing the net's generation number, with the neighbor graph closed inside
the net's population. -/

def CellNet.WF (net : CellNet) (σ : Store) : Prop :=
  net.cells.Nodup ∧
  (∀ id ∈ net.cells, id < σ.size) ∧
  (∀ id ∈ net.cells, (σ.get id).generation = net.generation) ∧
  (∀ id ∈ net.cells, ∀ n ∈ (σ.get id).neighbors, n ∈ net.cells)

/-- Master characterization of one tick of a well-formed flat net.  The new
population is `σ.size, σ.size + 1, ...` in the order of the old one; the
`k`-th old cell ends with `descendant` pointing at the `k`-th new cell; the
`k`-th new cell keeps the old identity, carries the regeneration rule's
output over the PRE-tick store, has generation one higher, ancestor link
back, and neighbors rewired to the descendants of the old neighbors; the new
population is exactly the image of the old one under the descendant link;
and well-formedness is preserved at the bumped generation. -/

def simpleCellTriangle (σ : Store) (c0 c1 c2 : CellId) : Store × CellNet :=
  let σ1 := σ.set c0 { σ.get c0 with neighbors := [c1, c2] }
  let σ2 := σ1.set c1 { σ1.get c1 with neighbors := [c0, c2] }
  let σ3 := σ2.set c2 { σ2.get c2 with neighbors := [c0, c1] }
  (σ3, { cells := [c0, c1, c2], generation := 0 })

/-- The triangle of the spec's scenario and of the `simpleCellTriangle`
docstring: IntegerCells A=1, B=5, C=7, mutual neighbors. -/

def triangleBuild : Store × CellNet :=
  let p0 := IntegerCell.make ⟨[]⟩ "Cell A" 1
  let p1 := IntegerCell.make p0.1 "Cell B" 5
  let p2 := IntegerCell.make p1.1 "Cell C" 7
  simpleCellTriangle p2.1 p0.2 p1.2 p2.2

/-- States of the triangle's cells, in cell order, after `tick()`
(i.e. `tick(1)`). -/

def triangleStatesAfterTick : Option (List Int) :=
  match (triangleBuild.2).tick triangleBuild.1 1 with
  | none => none
  | some q => some (q.2.cells.map (fun id => ((q.1.get id).state).toInt))

/-- The concrete post-tick result of the triangle scenario, used as the
witness input for the generic tick theorems. -/

def triangleTicked : Store × CellNet :=
  ((triangleBuild.2).tickOnce triangleBuild.1).getD (⟨[]⟩, ⟨[], 0⟩)

-- Claim theorems -------------------------------------------------------------

/-- C1: for a simpleCellTriangle built from three IntegerCells with states
1, 5 and 7 that are mutual neighbors, one call to `tick()` produces a new
generation whose states, in cell order, are `[12, 8, 6]` — each new state
the sum of the other two cells' pre-tick states. -/

def singleCellStore : Store :=
  ⟨[{ identity := "Cell 1", state := .intS 0, generation := 0,
      neighbors := [], ancestor := none, descendant := none }]⟩

/-- C8 counterexample: cloning a cell whose descendant is already set is NOT
rejected — the second `clone` succeeds and silently overwrites the
`descendant` link (here from `some 1` to `some 2`). -/

structure CellGrid where
  rows : Nat
  cols : Nat
  cells : List (List CellId)
  generation : Nat
deriving Repr, DecidableEq

/-- The cell reference stored at `(row, col)` (`self.cells[row][col]`). -/
def cellAt (g : CellGrid) (row col : Nat) : CellId :=
  (g.cells.getD row []).getD col 0

/-- The compass-offset computation of `CellGrid.setupNeighbors` (cellNet.py
lines 100-112): the eight candidate positions in the source's order
`(n, ne, e, se, s, sw, w, nw)`, each guarded by the edge conditions, with
the absent ones filtered out. -/

def gridNeighborPositions (rows cols row col : Nat) : List (Nat × Nat) :=
  let nw := if row > 0 ∧ col > 0 then some (row - 1, col - 1) else none
  let n := if row > 0 then some (row - 1, col) else none
  let ne := if row > 0 ∧ col < cols - 1 then some (row - 1, col + 1) else none
  let e := if col < cols - 1 then some (row, col + 1) else none
  let se := if row < rows - 1 ∧ col < cols - 1 then some (row + 1, col + 1) else none
  let s := if row < rows - 1 then some (row + 1, col) else none
  let sw := if row < rows - 1 ∧ col > 0 then some (row + 1, col - 1) else none
  let w := if col > 0 then some (row, col - 1) else none
  [n, ne, e, se, s, sw, w, nw].filterMap id

/-- Embedding of `CellGrid.setupNeighbors` (cellNet.py lines 100-112): for every
position, point the cell's neighbor list at the in-range compass-adjacent
cells. -/

def CellGrid.setupNeighbors (g : CellGrid) (σ : Store) : Store :=
  (List.range g.rows).foldl (fun σr row =>
    (List.range g.cols).foldl (fun σc col =>
      σc.set (cellAt g row col)
        { σc.get (cellAt g row col) with
          neighbors := (gridNeighborPositions g.rows g.cols row col).map
            (fun q => cellAt g q.1 q.2) }) σr) σ

/-- Modelled from the spec: the `BaseCell` constructor of the missing `cell`
module, as invoked by `CellGrid.makeCell` with the `(row, col)` tuple as
identity; a BaseCell carries no meaningful state, modelled as integer 0. -/

def mkBaseCellAt (row col : Nat) : Cell :=
  { identity := toString row ++ "," ++ toString col
    state := .intS 0
    generation := 0
    neighbors := []
    ancestor := none
    descendant := none }

/-- Embedding of `CellGrid.__init__` (cellNet.py lines 93-112): allocate a `rows x cols`
array of cells row-major (via the overridable `makeCell`, passed here as
`mk`), then wire the neighbors.  Cell `(row, col)` lands at store id
`base + row * cols + col`. -/

def CellGrid.build (σ : Store) (rows cols : Nat) (mk : Nat → Nat → Cell) :
    Store × CellGrid :=
  let base := σ.size
  let σ1 : Store :=
    ⟨σ.cells ++ ((List.range rows).map (fun row =>
      (List.range cols).map (fun col => mk row col))).flatten⟩
  let g : CellGrid :=
    { rows := rows
      cols := cols
      cells := (List.range rows).map (fun row =>
        (List.range cols).map (fun col => base + row * cols + col))
      generation := 0 }
  (g.setupNeighbors σ1, g)

/-- Embedding of `CellGrid.toList` (cellNet.py lines 120-122): the row-major flattening
`[ self.cells[row][col] for row in range(rows) for col in range(cols) ]`. -/

def CellGrid.toList (g : CellGrid) : List CellId :=
  ((List.range g.rows).map (fun row =>
    (List.range g.cols).map (fun col => cellAt g row col))).flatten

/-- Python's `list.pop()`: remove and return the last element; `none` models
the `IndexError` on an empty list. -/

def listPop {α : Type} (l : List α) : Option (List α × α) :=
  match l.reverse with
  | [] => none
  | x :: rest => some (rest.reverse, x)

/-- One inner comprehension `[ cells.pop() for col in range(self.cols) ]` of
`CellGrid.fromList`: pop `n` elements off the end of the working list. -/

def popRow : List CellId → Nat → Option (List CellId × List CellId)
  | l, 0 => some (l, [])
  | l, n + 1 =>
    match listPop l with
    | none => none
    | some (l1, x) =>
      match popRow l1 n with
      | none => none
      | some (l2, xs) => some (l2, x :: xs)

/-- The outer comprehension of `CellGrid.fromList`: build `r` rows of `cols`
pops each, in order. -/

def popGrid : List CellId → Nat → Nat → Option (List CellId × List (List CellId))
  | l, 0, _ => some (l, [])
  | l, r + 1, cols =>
    match popRow l cols with
    | none => none
    | some (l1, row) =>
      match popGrid l1 r cols with
      | none => none
      | some (l2, rows) => some (l2, row :: rows)

/-- Embedding of `CellGrid.fromList` (cellNet.py lines 114-118): `cells.reverse()` in
place, then the nested pop comprehension.  Returns the new 2-D array
together with the final contents of the destructively consumed argument
list; `none` models the `IndexError` raised when the list runs out of
elements. -/

def CellGrid.fromList (g : CellGrid) (cells : List CellId) :
    Option (List (List CellId) × List CellId) :=
  match popGrid cells.reverse g.rows g.cols with
  | none => none
  | some (rest, newCells) => some (newCells, rest)

/-- One generation advance of a `CellGrid` (`CellNet.tick` with the grid's
`toList`/`fromList` overrides). -/

def CellGrid.tickOnce (g : CellGrid) (σ : Store) : Option (Store × CellGrid) :=
  let p := tickClones σ g.toList
  match rewireAll p.1 p.2 with
  | none => none
  | some σ2 =>
    match g.fromList p.2 with
    | none => none
    | some q =>
      some (σ2, { g with cells := q.1, generation := g.generation + 1 })

/-- Row-major chunking: the first `r` rows of `c` elements each. -/
def chunks : Nat → Nat → List CellId → List (List CellId)
  | 0, _, _ => []
  | r + 1, c, ys => ys.take c :: chunks r c (ys.drop c)

-- Claims about CellGrid (C5, C6, C9, C10) ------------------------------------

/-- The 1x1 grid used as a concrete counterexample/witness input. -/
def g11 : CellGrid := { rows := 1, cols := 1, cells := [[0]], generation := 0 }

/-- The 3x3 grid of the spec's neighbor-count scenario, built by the
CellGrid constructor. -/

def grid3 : Store × CellGrid := CellGrid.build ⟨[]⟩ 3 3 mkBaseCellAt

/-- C5: for every populated (rectangular `rows x cols`) CellGrid,
`fromList(toList(grid))` reproduces the identical arrangement — the very
same cell reference at every `(row, col)` — and consumes the intermediate
list completely. -/

-- Theorems ------------------------------------------------------------------

-- Basic store lemmas ---------------------------------------------------------

theorem Store.size_set (σ : Store) (i : CellId) (c : Cell) :
    (σ.set i c).size = σ.size := by
  simp [Store.set, Store.size]

theorem Store.get_set_self (σ : Store) (i : CellId) (c : Cell) (h : i < σ.size) :
    (σ.set i c).get i = c := by
  simp [Store.set, Store.get, List.getD_eq_getElem, h, Store.size] at *
  simp [List.getElem_set, h]

theorem Store.get_set_ne (σ : Store) (i j : CellId) (c : Cell) (h : j ≠ i) :
    (σ.set i c).get j = σ.get j := by
  unfold Store.set Store.get
  rcases Nat.lt_or_ge j σ.cells.length with hj | hj
  · rw [List.getD_eq_getElem _ _ (by simpa using hj),
      List.getD_eq_getElem _ _ hj]
    simp [List.getElem_set, h.symm]
  · rw [List.getD_eq_default _ _ (by simpa using hj), List.getD_eq_default _ _ hj]

theorem Store.size_alloc (σ : Store) (c : Cell) :
    (σ.alloc c).1.size = σ.size + 1 := by
  simp [Store.alloc, Store.size]

theorem Store.get_alloc_new (σ : Store) (c : Cell) :
    (σ.alloc c).1.get σ.size = c := by
  unfold Store.alloc Store.get Store.size
  rw [List.getD_append_right _ _ _ _ (Nat.le_refl _)]
  simp

theorem Store.get_alloc_old (σ : Store) (c : Cell) (j : CellId) (h : j < σ.size) :
    (σ.alloc c).1.get j = σ.get j := by
  unfold Store.alloc Store.get
  exact List.getD_append _ _ _ _ h

-- Characterization of clone, mutate, wireNeighbors, nextGen ------------------

theorem Store.get_alloc_at (σ : Store) (c : Cell) (i : CellId) (h : i = σ.size) :
    (σ.alloc c).1.get i = c := by
  subst h; exact Store.get_alloc_new ..

theorem clone_id (σ : Store) (cid : CellId) (ident : Option String) :
    (clone σ cid ident).2 = σ.size := by
  simp [clone, Store.alloc, Store.set, Store.size]

theorem clone_size (σ : Store) (cid : CellId) (ident : Option String) :
    (clone σ cid ident).1.size = σ.size + 1 := by
  simp [clone, Store.alloc, Store.set, Store.size]

theorem clone_get_new (σ : Store) (cid : CellId) (ident : Option String) :
    (clone σ cid ident).1.get σ.size =
      { identity := ident.getD (σ.get cid).identity
        state := (σ.get cid).state
        generation := (σ.get cid).generation + 1
        neighbors := []
        ancestor := some cid
        descendant := none } := by
  simp only [clone]
  exact Store.get_alloc_at _ _ _ (Store.size_set ..).symm

theorem clone_get_old (σ : Store) (cid : CellId) (ident : Option String)
    (hc : cid < σ.size) :
    (clone σ cid ident).1.get cid =
      { σ.get cid with descendant := some σ.size } := by
  simp only [clone]
  rw [Store.get_alloc_old _ _ _ (by rw [Store.size_set]; exact hc)]
  exact Store.get_set_self _ _ _ hc

theorem clone_get_other (σ : Store) (cid : CellId) (ident : Option String)
    (j : CellId) (hj : j < σ.size) (hne : j ≠ cid) :
    (clone σ cid ident).1.get j = σ.get j := by
  simp only [clone]
  rw [Store.get_alloc_old _ _ _ (by rw [Store.size_set]; exact hj)]
  exact Store.get_set_ne _ _ _ _ hne

theorem mutate_size (σ : Store) (cid : CellId) :
    (mutate σ cid).size = σ.size := Store.size_set ..

theorem mutate_get_self (σ : Store) (cid : CellId) (hc : cid < σ.size) :
    (mutate σ cid).get cid =
      { σ.get cid with state := ruleState σ (σ.get cid) } :=
  Store.get_set_self _ _ _ hc

theorem mutate_get_ne (σ : Store) (cid j : CellId) (hne : j ≠ cid) :
    (mutate σ cid).get j = σ.get j :=
  Store.get_set_ne _ _ _ _ hne

theorem wireNeighbors_size (σ : Store) (nid src : CellId) :
    (wireNeighbors σ nid src).size = σ.size := Store.size_set ..

theorem wireNeighbors_get_self (σ : Store) (nid src : CellId) (h : nid < σ.size) :
    (wireNeighbors σ nid src).get nid =
      { σ.get nid with neighbors := (σ.get src).neighbors } :=
  Store.get_set_self _ _ _ h

theorem wireNeighbors_get_ne (σ : Store) (nid src j : CellId) (hne : j ≠ nid) :
    (wireNeighbors σ nid src).get j = σ.get j :=
  Store.get_set_ne _ _ _ _ hne

/-- The rule output depends only on the cell's own state and neighbors and on
the states the store assigns to those neighbors. -/

theorem ruleState_congr (σ σ' : Store) (c c' : Cell)
    (hs : c'.state = c.state) (hn : c'.neighbors = c.neighbors)
    (h : ∀ n ∈ c.neighbors, (σ'.get n).state = (σ.get n).state) :
    ruleState σ' c' = ruleState σ c := by
  unfold ruleState
  rw [hs, hn]
  cases hc : c.state with
  | intS n =>
    have hmap : ∀ m ∈ c.neighbors,
        ((σ'.get m).state).toInt = ((σ.get m).state).toInt := by
      intro m hm; rw [h m hm]
    rw [List.map_congr_left hmap]
  | boolS b => rfl

theorem nextGen_unfold (σ : Store) (cid : CellId) (ident : Option String) :
    nextGen σ cid ident =
      (mutate (wireNeighbors (clone σ cid ident).1 (clone σ cid ident).2 cid)
         (clone σ cid ident).2,
       (clone σ cid ident).2) := rfl

theorem nextGen_id (σ : Store) (cid : CellId) (ident : Option String) :
    (nextGen σ cid ident).2 = σ.size := by
  rw [nextGen_unfold]; exact clone_id σ cid ident

theorem nextGen_size (σ : Store) (cid : CellId) (ident : Option String) :
    (nextGen σ cid ident).1.size = σ.size + 1 := by
  rw [nextGen_unfold]
  show (mutate _ _).size = _
  rw [mutate_size, wireNeighbors_size, clone_size]

theorem nextGen_get_ancestor (σ : Store) (cid : CellId) (ident : Option String)
    (hc : cid < σ.size) :
    (nextGen σ cid ident).1.get cid =
      { σ.get cid with descendant := some σ.size } := by
  have hne : cid ≠ σ.size := Nat.ne_of_lt hc
  rw [nextGen_unfold]
  show (mutate _ _).get cid = _
  rw [clone_id, mutate_get_ne _ _ _ hne, wireNeighbors_get_ne _ _ _ _ hne]
  exact clone_get_old _ _ _ hc

theorem nextGen_get_other (σ : Store) (cid : CellId) (ident : Option String)
    (j : CellId) (hj : j < σ.size) (hne : j ≠ cid) :
    (nextGen σ cid ident).1.get j = σ.get j := by
  have hjne : j ≠ σ.size := Nat.ne_of_lt hj
  rw [nextGen_unfold]
  show (mutate _ _).get j = _
  rw [clone_id, mutate_get_ne _ _ _ hjne, wireNeighbors_get_ne _ _ _ _ hjne]
  exact clone_get_other _ _ _ _ hj hne

theorem nextGen_get_new (σ : Store) (cid : CellId) (ident : Option String)
    (hc : cid < σ.size) (hnb : ∀ n ∈ (σ.get cid).neighbors, n < σ.size) :
    (nextGen σ cid ident).1.get σ.size =
      { identity := ident.getD (σ.get cid).identity
        state := ruleState σ (σ.get cid)
        generation := (σ.get cid).generation + 1
        neighbors := (σ.get cid).neighbors
        ancestor := some cid
        descendant := none } := by
  have hne : cid ≠ σ.size := Nat.ne_of_lt hc
  rw [nextGen_unfold]
  show (mutate _ _).get σ.size = _
  rw [clone_id]
  have hwsz : σ.size < (wireNeighbors (clone σ cid ident).1 σ.size cid).size := by
    rw [wireNeighbors_size, clone_size]; exact Nat.lt_succ_self _
  rw [mutate_get_self _ _ hwsz]
  have hw : (wireNeighbors (clone σ cid ident).1 σ.size cid).get σ.size =
      { identity := ident.getD (σ.get cid).identity
        state := (σ.get cid).state
        generation := (σ.get cid).generation + 1
        neighbors := (σ.get cid).neighbors
        ancestor := some cid
        descendant := none } := by
    have hsz : σ.size < (clone σ cid ident).1.size := by
      rw [clone_size]; exact Nat.lt_succ_self _
    rw [wireNeighbors_get_self _ _ _ hsz, clone_get_new, clone_get_old _ _ _ hc]
  rw [hw]
  have hrule : ruleState (wireNeighbors (clone σ cid ident).1 σ.size cid)
      ({ identity := ident.getD (σ.get cid).identity
         state := (σ.get cid).state
         generation := (σ.get cid).generation + 1
         neighbors := (σ.get cid).neighbors
         ancestor := some cid
         descendant := none } : Cell) = ruleState σ (σ.get cid) := by
    apply ruleState_congr _ _ _ _ rfl rfl
    intro n hn
    have hnsz : n < σ.size := hnb n hn
    have hnne : n ≠ σ.size := Nat.ne_of_lt hnsz
    rw [wireNeighbors_get_ne _ _ _ _ hnne]
    rcases eq_or_ne n cid with rfl | hncid
    · rw [clone_get_old _ _ _ hc]
    · rw [clone_get_other _ _ _ _ hnsz hncid]
  rw [hrule]

-- CellNet.tick, phase 1: clone the whole generation --------------------------

/-- The list comprehension `[ cell.nextGen() for cell in cellList ]` of
`CellNet.tick` (cellNet.py line 40), evaluated left to right, threading the
store. -/

theorem tickClones_spec (ids : List CellId) (σ : Store)
    (hval : ∀ id ∈ ids, id < σ.size)
    (hnb : ∀ id ∈ ids, ∀ n ∈ (σ.get id).neighbors, n < σ.size)
    (hnd : ids.Nodup) :
    (tickClones σ ids).2 = List.range' σ.size ids.length ∧
    (tickClones σ ids).1.size = σ.size + ids.length ∧
    (∀ j, j < σ.size → j ∉ ids → (tickClones σ ids).1.get j = σ.get j) ∧
    (∀ k, (hk : k < ids.length) →
      (tickClones σ ids).1.get (ids.get ⟨k, hk⟩) =
        { σ.get (ids.get ⟨k, hk⟩) with descendant := some (σ.size + k) } ∧
      (tickClones σ ids).1.get (σ.size + k) =
        { identity := (σ.get (ids.get ⟨k, hk⟩)).identity
          state := ruleState σ (σ.get (ids.get ⟨k, hk⟩))
          generation := (σ.get (ids.get ⟨k, hk⟩)).generation + 1
          neighbors := (σ.get (ids.get ⟨k, hk⟩)).neighbors
          ancestor := some (ids.get ⟨k, hk⟩)
          descendant := none }) := by
  induction ids generalizing σ with
  | nil => exact ⟨rfl, by simp [tickClones], fun j _ _ => rfl, fun k hk => by simp at hk⟩
  | cons a rest ih =>
    have ha : a < σ.size := hval a (List.mem_cons_self ..)
    have hanb : ∀ n ∈ (σ.get a).neighbors, n < σ.size :=
      hnb a (List.mem_cons_self ..)
    have hrest_mem : ∀ id ∈ rest, id ∈ a :: rest := fun id h => List.mem_cons_of_mem _ h
    have hane : a ∉ rest := (List.nodup_cons.mp hnd).1
    have hndr : rest.Nodup := (List.nodup_cons.mp hnd).2
    set σ1 := (nextGen σ a none).1 with hσ1
    have hsz1 : σ1.size = σ.size + 1 := nextGen_size ..
    have hget1_a : σ1.get a = { σ.get a with descendant := some σ.size } :=
      nextGen_get_ancestor _ _ _ ha
    have hget1_new : σ1.get σ.size =
        { identity := (σ.get a).identity
          state := ruleState σ (σ.get a)
          generation := (σ.get a).generation + 1
          neighbors := (σ.get a).neighbors
          ancestor := some a
          descendant := none } := by
      have h := nextGen_get_new σ a none ha hanb
      simpa using h
    have hget1_oth : ∀ j, j < σ.size → j ≠ a → σ1.get j = σ.get j :=
      fun j hj hne => nextGen_get_other _ _ _ _ hj hne
    have hstate1 : ∀ j, j < σ.size → (σ1.get j).state = (σ.get j).state := by
      intro j hj
      rcases eq_or_ne j a with rfl | hne
      · rw [hget1_a]
      · rw [hget1_oth j hj hne]
    have hval1 : ∀ id ∈ rest, id < σ1.size := by
      intro id h; rw [hsz1]; exact Nat.lt_succ_of_lt (hval id (hrest_mem id h))
    have hnb1 : ∀ id ∈ rest, ∀ n ∈ (σ1.get id).neighbors, n < σ1.size := by
      intro id h n hn
      rw [hget1_oth id (hval id (hrest_mem id h))
        (fun he => hane (he ▸ h))] at hn
      rw [hsz1]
      exact Nat.lt_succ_of_lt (hnb id (hrest_mem id h) n hn)
    obtain ⟨ih1, ih2, ih3, ih4⟩ := ih σ1 hval1 hnb1 hndr
    have hsize_ne : ∀ id ∈ rest, id ≠ σ.size :=
      fun id h => Nat.ne_of_lt (hval id (hrest_mem id h))
    have hkeep : ∀ j, j < σ.size → j ∉ rest →
        (tickClones σ1 rest).1.get j = σ1.get j := by
      intro j hj hjr
      exact ih3 j (by rw [hsz1]; exact Nat.lt_succ_of_lt hj) hjr
    have hkeep_new : (tickClones σ1 rest).1.get σ.size = σ1.get σ.size := by
      refine ih3 σ.size (by rw [hsz1]; exact Nat.lt_succ_self _) ?_
      intro hmem
      exact hsize_ne σ.size hmem rfl
    refine ⟨?_, ?_, ?_, ?_⟩
    · show (nextGen σ a none).2 :: (tickClones σ1 rest).2 =
        List.range' σ.size (a :: rest).length
      rw [nextGen_id, ih1, hsz1, List.length_cons, List.range'_succ]
    · show (tickClones σ1 rest).1.size = σ.size + (a :: rest).length
      rw [ih2, hsz1, List.length_cons]
      omega
    · intro j hj hjm
      have hja : j ≠ a := fun he => hjm (he ▸ List.mem_cons_self ..)
      have hjr : j ∉ rest := fun hm => hjm (List.mem_cons_of_mem _ hm)
      show (tickClones σ1 rest).1.get j = σ.get j
      rw [hkeep j hj hjr, hget1_oth j hj hja]
    · intro k hk
      cases k with
      | zero =>
        constructor
        · show (tickClones σ1 rest).1.get a =
            { σ.get a with descendant := some (σ.size + 0) }
          rw [hkeep a ha hane, hget1_a, Nat.add_zero]
        · show (tickClones σ1 rest).1.get (σ.size + 0) =
            { identity := (σ.get a).identity
              state := ruleState σ (σ.get a)
              generation := (σ.get a).generation + 1
              neighbors := (σ.get a).neighbors
              ancestor := some a
              descendant := none }
          rw [Nat.add_zero, hkeep_new, hget1_new]
      | succ n =>
        have hn : n < rest.length := by
          have := Nat.lt_of_succ_lt_succ (by simpa using hk)
          exact this
        obtain ⟨ihA, ihB⟩ := ih4 n hn
        have hrmem : rest.get ⟨n, hn⟩ ∈ rest := List.get_mem ..
        have hrlt : rest.get ⟨n, hn⟩ < σ.size :=
          hval _ (hrest_mem _ hrmem)
        have hrne : rest.get ⟨n, hn⟩ ≠ a := fun he => hane (he ▸ hrmem)
        have hσ1r : σ1.get (rest.get ⟨n, hn⟩) = σ.get (rest.get ⟨n, hn⟩) :=
          hget1_oth _ hrlt hrne
        have hidx : σ1.size + n = σ.size + (n + 1) := by rw [hsz1]; omega
        constructor
        · show (tickClones σ1 rest).1.get (rest.get ⟨n, hn⟩) =
            { σ.get (rest.get ⟨n, hn⟩) with descendant := some (σ.size + (n + 1)) }
          rw [ihA, hσ1r, hidx]
        · show (tickClones σ1 rest).1.get (σ.size + (n + 1)) =
            { identity := (σ.get (rest.get ⟨n, hn⟩)).identity
              state := ruleState σ (σ.get (rest.get ⟨n, hn⟩))
              generation := (σ.get (rest.get ⟨n, hn⟩)).generation + 1
              neighbors := (σ.get (rest.get ⟨n, hn⟩)).neighbors
              ancestor := some (rest.get ⟨n, hn⟩)
              descendant := none }
          rw [← hidx, ihB, hσ1r]
          have hrs : ruleState σ1 (σ.get (rest.get ⟨n, hn⟩)) =
              ruleState σ (σ.get (rest.get ⟨n, hn⟩)) := by
            apply ruleState_congr _ _ _ _ rfl rfl
            intro m hm
            exact hstate1 m (hnb _ (hrest_mem _ hrmem) m hm)
          rw [hrs]

-- CellNet.tick, phase 2: rewire neighbors onto the new generation ------------

/-- The comprehension `[ n.descendant for n in cell.neighbors ]`
(cellNet.py line 44).  A `descendant` that is still `None` poisons the
result (in Python it would leave a `None` in a neighbor list, crashing any
later use), modelled as `none`. -/

theorem descList_eq_some (σ : Store) (l : List CellId)
    (h : ∀ n ∈ l, ((σ.get n).descendant).isSome) :
    descList σ l = some (l.map (fun n => ((σ.get n).descendant).getD 0)) := by
  induction l with
  | nil => rfl
  | cons n ns ih =>
    have hn := h n (List.mem_cons_self ..)
    obtain ⟨d, hd⟩ := Option.isSome_iff_exists.mp hn
    have hns := ih (fun m hm => h m (List.mem_cons_of_mem _ hm))
    simp [descList, hd, hns]

/-- Characterization of the rewiring loop, run over a duplicate-free list of
valid "new" cells (all at ids `≥ m`) whose neighbors are all "old" cells
(ids `< m`) with a descendant already set: it succeeds, every rewired cell's
neighbor list becomes the descendant of each old neighbor, and every cell
outside the list — in particular every old cell — is untouched. -/

theorem rewireAll_spec (l : List CellId) (σ : Store) (m : Nat)
    (hval : ∀ a ∈ l, a < σ.size)
    (hnd : l.Nodup)
    (hge : ∀ a ∈ l, m ≤ a)
    (hnb : ∀ a ∈ l, ∀ n ∈ (σ.get a).neighbors, n < m)
    (hdesc : ∀ a ∈ l, ∀ n ∈ (σ.get a).neighbors, ((σ.get n).descendant).isSome) :
    ∃ σ2, rewireAll σ l = some σ2 ∧
      σ2.size = σ.size ∧
      (∀ j, j < σ.size → j ∉ l → σ2.get j = σ.get j) ∧
      (∀ a ∈ l, σ2.get a =
        { σ.get a with
          neighbors :=
            (σ.get a).neighbors.map (fun n => ((σ.get n).descendant).getD 0) }) := by
  induction l generalizing σ with
  | nil => exact ⟨σ, rfl, rfl, fun j _ _ => rfl, fun a ha => absurd ha (List.not_mem_nil a)⟩
  | cons a rest ih =>
    have ha : a < σ.size := hval a (List.mem_cons_self ..)
    have ham : m ≤ a := hge a (List.mem_cons_self ..)
    have hane : a ∉ rest := (List.nodup_cons.mp hnd).1
    have hndr : rest.Nodup := (List.nodup_cons.mp hnd).2
    have hrest_mem : ∀ b ∈ rest, b ∈ a :: rest := fun b h => List.mem_cons_of_mem _ h
    have hda := descList_eq_some σ (σ.get a).neighbors
      (hdesc a (List.mem_cons_self ..))
    set σ1 := σ.set a { σ.get a with
      neighbors := (σ.get a).neighbors.map (fun n => ((σ.get n).descendant).getD 0) }
      with hσ1
    have hone : rewireOne σ a = some σ1 := by
      unfold rewireOne
      rw [hda]
    have hsz1 : σ1.size = σ.size := Store.size_set ..
    have hget1_a : σ1.get a = { σ.get a with
        neighbors := (σ.get a).neighbors.map (fun n => ((σ.get n).descendant).getD 0) } :=
      Store.get_set_self _ _ _ ha
    have hget1_oth : ∀ j, j ≠ a → σ1.get j = σ.get j :=
      fun j hne => Store.get_set_ne _ _ _ _ hne
    have hold_same : ∀ j, j < m → σ1.get j = σ.get j := by
      intro j hj
      exact hget1_oth j (fun he => absurd (he ▸ hj) (Nat.not_lt.mpr ham))
    have hval1 : ∀ b ∈ rest, b < σ1.size := by
      intro b hb; rw [hsz1]; exact hval b (hrest_mem b hb)
    have hge1 : ∀ b ∈ rest, m ≤ b := fun b hb => hge b (hrest_mem b hb)
    have hbget : ∀ b ∈ rest, σ1.get b = σ.get b :=
      fun b hb => hget1_oth b (fun he => hane (he ▸ hb))
    have hnb1 : ∀ b ∈ rest, ∀ n ∈ (σ1.get b).neighbors, n < m := by
      intro b hb n hn
      rw [hbget b hb] at hn
      exact hnb b (hrest_mem b hb) n hn
    have hdesc1 : ∀ b ∈ rest, ∀ n ∈ (σ1.get b).neighbors,
        ((σ1.get n).descendant).isSome := by
      intro b hb n hn
      rw [hbget b hb] at hn
      rw [hold_same n (hnb b (hrest_mem b hb) n hn)]
      exact hdesc b (hrest_mem b hb) n hn
    obtain ⟨σ2, hrw, hsz2, hoth2, hmem2⟩ := ih σ1 hval1 hndr hge1 hnb1 hdesc1
    refine ⟨σ2, ?_, ?_, ?_, ?_⟩
    · show rewireAll σ (a :: rest) = some σ2
      unfold rewireAll
      rw [hone]
      exact hrw
    · rw [hsz2, hsz1]
    · intro j hj hjm
      have hja : j ≠ a := fun he => hjm (he ▸ List.mem_cons_self ..)
      have hjr : j ∉ rest := fun hm => hjm (List.mem_cons_of_mem _ hm)
      rw [hoth2 j (by rw [hsz1]; exact hj) hjr]
      exact hget1_oth j hja
    · intro b hb
      rcases List.mem_cons.mp hb with rfl | hbr
      · rw [hoth2 b (by rw [hsz1]; exact ha) hane]
        exact hget1_a
      · have hmapeq :
            (σ.get b).neighbors.map (fun n => ((σ1.get n).descendant).getD 0) =
            (σ.get b).neighbors.map (fun n => ((σ.get n).descendant).getD 0) := by
          apply List.map_congr_left
          intro n hn
          rw [hold_same n (hnb b (hrest_mem b hbr) n hn)]
        rw [hmem2 b hbr, hbget b hbr, hmapeq]

-- CellNet -------------------------------------------------------------------

/-- Embedding of `CellNet` (cellNet.py lines 7-52): a population of cells plus a
generation counter.  The base class keeps `cells` as a flat list
(`toList`/`fromList` are the identity); `simpleCellTriangle` is such a net
with three cells. -/

theorem CellNet.tickOnce_spec (net : CellNet) (σ : Store) (h : net.WF σ) :
    ∃ σ2, net.tickOnce σ =
        some (σ2, ⟨List.range' σ.size net.cells.length, net.generation + 1⟩) ∧
      σ2.size = σ.size + net.cells.length ∧
      (∀ k, (hk : k < net.cells.length) →
        σ2.get (net.cells.get ⟨k, hk⟩) =
          { σ.get (net.cells.get ⟨k, hk⟩) with descendant := some (σ.size + k) } ∧
        (σ2.get (σ.size + k)).identity = (σ.get (net.cells.get ⟨k, hk⟩)).identity ∧
        (σ2.get (σ.size + k)).state = ruleState σ (σ.get (net.cells.get ⟨k, hk⟩)) ∧
        (σ2.get (σ.size + k)).generation = net.generation + 1 ∧
        (σ2.get (σ.size + k)).ancestor = some (net.cells.get ⟨k, hk⟩) ∧
        (σ2.get (σ.size + k)).neighbors =
          (σ.get (net.cells.get ⟨k, hk⟩)).neighbors.map
            (fun nb => ((σ2.get nb).descendant).getD 0)) ∧
      List.range' σ.size net.cells.length =
        net.cells.map (fun id => ((σ2.get id).descendant).getD 0) ∧
      CellNet.WF ⟨List.range' σ.size net.cells.length, net.generation + 1⟩ σ2 := by
  obtain ⟨hnd, hval, hgen, hclosed⟩ := h
  have hnb : ∀ id ∈ net.cells, ∀ n ∈ (σ.get id).neighbors, n < σ.size :=
    fun id hid n hn => hval n (hclosed id hid n hn)
  obtain ⟨hT1, hT2, hT3, hT4⟩ := tickClones_spec net.cells σ hval hnb hnd
  rcases hpe : tickClones σ net.cells with ⟨σ1, nids⟩
  simp only [hpe] at hT1 hT2 hT3 hT4
  subst hT1
  have hmem_nids : ∀ a, a ∈ List.range' σ.size net.cells.length ↔
      σ.size ≤ a ∧ a < σ.size + net.cells.length := by
    intro a; exact List.mem_range'_1
  have hRval : ∀ a ∈ List.range' σ.size net.cells.length, a < σ1.size := by
    intro a ha; rw [hT2]; exact ((hmem_nids a).mp ha).2
  have hRnd : (List.range' σ.size net.cells.length).Nodup :=
    List.nodup_range' σ.size net.cells.length
  have hRge : ∀ a ∈ List.range' σ.size net.cells.length, σ.size ≤ a :=
    fun a ha => ((hmem_nids a).mp ha).1
  have hblock : ∀ a ∈ List.range' σ.size net.cells.length,
      ∃ k, ∃ hk : k < net.cells.length, a = σ.size + k := by
    intro a ha
    obtain ⟨hma, ham⟩ := (hmem_nids a).mp ha
    exact ⟨a - σ.size, Nat.sub_lt_left_of_lt_add hma ham,
      (Nat.add_sub_cancel' hma).symm⟩
  have hidx_mem : ∀ k, (hk : k < net.cells.length) →
      net.cells.get ⟨k, hk⟩ ∈ net.cells :=
    fun k hk => List.get_mem net.cells k hk
  have hRnb : ∀ a ∈ List.range' σ.size net.cells.length,
      ∀ nb ∈ (σ1.get a).neighbors, nb < σ.size := by
    intro a ha nb hnb1
    obtain ⟨k, hk, rfl⟩ := hblock a ha
    rw [(hT4 k hk).2] at hnb1
    exact hnb _ (hidx_mem k hk) nb hnb1
  have holddesc : ∀ nb ∈ net.cells, ((σ1.get nb).descendant).isSome := by
    intro nb hnbm
    obtain ⟨⟨j, hj⟩, hji⟩ := List.mem_iff_get.mp hnbm
    rw [← hji, (hT4 j hj).1]
    simp
  have hRdesc : ∀ a ∈ List.range' σ.size net.cells.length,
      ∀ nb ∈ (σ1.get a).neighbors, ((σ1.get nb).descendant).isSome := by
    intro a ha nb hnb1
    obtain ⟨k, hk, rfl⟩ := hblock a ha
    rw [(hT4 k hk).2] at hnb1
    exact holddesc nb (hclosed _ (hidx_mem k hk) nb hnb1)
  obtain ⟨σ2, hrw, hsz2, hoth2, hmem2⟩ :=
    rewireAll_spec (List.range' σ.size net.cells.length) σ1 σ.size
      hRval hRnd hRge hRnb hRdesc
  have hold_pres : ∀ j, j < σ.size → σ2.get j = σ1.get j := by
    intro j hj
    refine hoth2 j (by rw [hT2]; exact Nat.lt_of_lt_of_le hj (Nat.le_add_right ..)) ?_
    intro hmem
    exact absurd hj (Nat.not_lt.mpr (hRge j hmem))
  have htick : net.tickOnce σ =
      some (σ2, ⟨List.range' σ.size net.cells.length, net.generation + 1⟩) := by
    unfold CellNet.tickOnce
    simp only [hpe]
    rw [hrw]
  have hforall : ∀ k, (hk : k < net.cells.length) →
      σ2.get (net.cells.get ⟨k, hk⟩) =
        { σ.get (net.cells.get ⟨k, hk⟩) with descendant := some (σ.size + k) } ∧
      (σ2.get (σ.size + k)).identity = (σ.get (net.cells.get ⟨k, hk⟩)).identity ∧
      (σ2.get (σ.size + k)).state = ruleState σ (σ.get (net.cells.get ⟨k, hk⟩)) ∧
      (σ2.get (σ.size + k)).generation = net.generation + 1 ∧
      (σ2.get (σ.size + k)).ancestor = some (net.cells.get ⟨k, hk⟩) ∧
      (σ2.get (σ.size + k)).neighbors =
        (σ.get (net.cells.get ⟨k, hk⟩)).neighbors.map
          (fun nb => ((σ2.get nb).descendant).getD 0) := by
    intro k hk
    have hklt : net.cells.get ⟨k, hk⟩ < σ.size := hval _ (hidx_mem k hk)
    have hmk_mem : σ.size + k ∈ List.range' σ.size net.cells.length := by
      rw [hmem_nids]
      exact ⟨Nat.le_add_right .., Nat.add_lt_add_left hk _⟩
    have hnew2 : σ2.get (σ.size + k) =
        { σ1.get (σ.size + k) with
          neighbors := (σ1.get (σ.size + k)).neighbors.map
            (fun nb => ((σ1.get nb).descendant).getD 0) } := hmem2 _ hmk_mem
    have hnew1 := (hT4 k hk).2
    refine ⟨?_, ?_, ?_, ?_, ?_, ?_⟩
    · rw [hold_pres _ hklt, (hT4 k hk).1]
    · rw [hnew2, hnew1]
    · rw [hnew2, hnew1]
    · rw [hnew2, hnew1]
      show (σ.get (net.cells.get ⟨k, hk⟩)).generation + 1 = net.generation + 1
      rw [hgen _ (hidx_mem k hk)]
    · rw [hnew2, hnew1]
    · rw [hnew2, hnew1]
      show List.map _ (σ.get (net.cells.get ⟨k, hk⟩)).neighbors = _
      apply List.map_congr_left
      intro nb hnbm
      have hnblt : nb < σ.size := hnb _ (hidx_mem k hk) nb hnbm
      rw [hold_pres nb hnblt]
  have hdescmap : List.range' σ.size net.cells.length =
      net.cells.map (fun id => ((σ2.get id).descendant).getD 0) := by
    apply List.ext_get
    · rw [List.length_range', List.length_map]
    · intro i h1 h2
      have hi : i < net.cells.length := by simpa using h2
      have hdesc_i := (hforall i hi).1
      have hgoal : (σ2.get (net.cells.get ⟨i, hi⟩)).descendant = some (σ.size + i) := by
        rw [hdesc_i]
      rw [List.get_eq_getElem, List.get_eq_getElem, List.getElem_range'_1 i h1,
        List.getElem_map]
      show σ.size + i = ((σ2.get (net.cells.get ⟨i, hi⟩)).descendant).getD 0
      rw [hgoal, Option.getD_some]
  have hWF2 : CellNet.WF
      ⟨List.range' σ.size net.cells.length, net.generation + 1⟩ σ2 := by
    refine ⟨hRnd, ?_, ?_, ?_⟩
    · intro id hid
      rw [hsz2]
      exact hRval id hid
    · intro id hid
      obtain ⟨k, hk, rfl⟩ := hblock id hid
      exact (hforall k hk).2.2.2.1
    · intro id hid nb hnbm
      obtain ⟨k, hk, rfl⟩ := hblock id hid
      rw [(hforall k hk).2.2.2.2.2] at hnbm
      obtain ⟨nb0, hnb0, rfl⟩ := List.mem_map.mp hnbm
      have hnb0c : nb0 ∈ net.cells := hclosed _ (hidx_mem k hk) nb0 hnb0
      obtain ⟨⟨j, hj⟩, hji⟩ := List.mem_iff_get.mp hnb0c
      have hdescj : (σ2.get nb0).descendant = some (σ.size + j) := by
        rw [← hji, (hforall j hj).1]
      rw [hdescj]
      simp only [Option.getD_some]
      rw [hmem_nids]
      exact ⟨Nat.le_add_right .., Nat.add_lt_add_left hj _⟩
  exact ⟨σ2, htick, by rw [hsz2, hT2], hforall, hdescmap, hWF2⟩

/-- Iterating `tick` preserves well-formedness and adds `g` to the
generation counter. -/

theorem CellNet.tick_spec (g : Nat) : ∀ (net : CellNet) (σ : Store), net.WF σ →
    ∃ q, net.tick σ g = some q ∧ q.2.generation = net.generation + g ∧
      q.2.WF q.1 := by
  induction g with
  | zero => exact fun net σ h => ⟨(σ, net), rfl, rfl, h⟩
  | succ g ih =>
    intro net σ h
    obtain ⟨σ2, htick, hsz, hforall, hmap, hWF⟩ := net.tickOnce_spec σ h
    obtain ⟨q, hq, hgenq, hWFq⟩ := ih _ σ2 hWF
    refine ⟨q, ?_, ?_, hWFq⟩
    · show CellNet.tick net σ (g + 1) = some q
      unfold CellNet.tick
      rw [htick]
      exact hq
    · rw [hgenq]
      show net.generation + 1 + g = net.generation + (g + 1)
      omega

-- simpleCellTriangle ---------------------------------------------------------

/-- Embedding of `simpleCellTriangle.__init__` plus its `setupNeighbors` (cellNet.py
lines 75-83): three given cells are made mutual neighbors, in the source's
wiring order, and the net starts at generation 0. -/

theorem triangle_tick_states : triangleStatesAfterTick = some [12, 8, 6] := by
  decide

/-- C2: during one tick of a well-formed CellNet, every cell's descendant
state is the cell's regeneration rule evaluated against the PRE-tick store
`σ` (the states its neighbors held before the tick began), so the iteration
order over cells within the tick cannot affect any resulting state. -/

theorem tick_uses_pretick_neighbor_states (net : CellNet) (σ : Store)
    (h : net.WF σ) (p : Store × CellNet) (hp : net.tickOnce σ = some p) :
    ∀ id ∈ net.cells, ∃ d, (p.1.get id).descendant = some d ∧
      (p.1.get d).state = ruleState σ (σ.get id) := by
  obtain ⟨σ2, htick, hsz, hforall, hmap, hWF⟩ := net.tickOnce_spec σ h
  rw [htick] at hp
  obtain rfl : (σ2, (⟨List.range' σ.size net.cells.length,
      net.generation + 1⟩ : CellNet)) = p := Option.some_injective _ hp
  intro id hid
  obtain ⟨⟨k, hk⟩, hki⟩ := List.mem_iff_get.mp hid
  refine ⟨σ.size + k, ?_, ?_⟩
  · show (σ2.get id).descendant = some (σ.size + k)
    rw [← hki, (hforall k hk).1]
  · show (σ2.get (σ.size + k)).state = ruleState σ (σ.get id)
    rw [← hki]
    exact (hforall k hk).2.2.1

/-- C2 witness: the triangle scenario, at its first cell, instantiates the
theorem. -/
theorem tick_uses_pretick_neighbor_states_witness :
    ∃ d, (triangleTicked.1.get 0).descendant = some d ∧
      (triangleTicked.1.get d).state =
        ruleState triangleBuild.1 (triangleBuild.1.get 0) :=
  tick_uses_pretick_neighbor_states triangleBuild.2 triangleBuild.1
    (by unfold CellNet.WF; decide) triangleTicked (by decide) 0 (by decide)

/-- C3: after a tick of a well-formed CellNet, every neighbor reference held
by a cell of the new generation points at a cell of the new population whose
generation number equals the net's new generation — no reference into the
retired generation. -/

theorem tick_rewires_to_new_generation (net : CellNet) (σ : Store)
    (h : net.WF σ) (p : Store × CellNet) (hp : net.tickOnce σ = some p) :
    ∀ id ∈ p.2.cells, ∀ nb ∈ (p.1.get id).neighbors,
      nb ∈ p.2.cells ∧ (p.1.get nb).generation = p.2.generation := by
  obtain ⟨σ2, htick, hsz, hforall, hmap, hWF⟩ := net.tickOnce_spec σ h
  rw [htick] at hp
  obtain rfl : (σ2, (⟨List.range' σ.size net.cells.length,
      net.generation + 1⟩ : CellNet)) = p := Option.some_injective _ hp
  intro id hid nb hnb
  obtain ⟨hnd2, hval2, hgen2, hclosed2⟩ := hWF
  have hmem : nb ∈ List.range' σ.size net.cells.length := hclosed2 id hid nb hnb
  exact ⟨hmem, hgen2 nb hmem⟩

/-- C3 witness: the triangle scenario, at the first new cell and its first
rewired neighbor, instantiates the theorem. -/
theorem tick_rewires_to_new_generation_witness :
    4 ∈ triangleTicked.2.cells ∧
      (triangleTicked.1.get 4).generation = triangleTicked.2.generation :=
  tick_rewires_to_new_generation triangleBuild.2 triangleBuild.1
    (by unfold CellNet.WF; decide) triangleTicked (by decide)
    3 (by decide) 4 (by decide)

/-- C4: for a well-formed CellNet, all cells share the net's generation
counter value; after one tick every old cell has a descendant set, the new
population is exactly those descendants (in order), and the counter is one
higher; and `tick(g)` for `g ≥ 1` raises the counter by exactly `g`, the
population again sharing it. -/

theorem tick_generation_invariants (net : CellNet) (σ : Store) (h : net.WF σ) :
    (∀ id ∈ net.cells, (σ.get id).generation = net.generation) ∧
    (∀ p, net.tickOnce σ = some p →
      p.2.generation = net.generation + 1 ∧
      (∀ id ∈ net.cells, ∃ d, (p.1.get id).descendant = some d) ∧
      p.2.cells = net.cells.map (fun id => ((p.1.get id).descendant).getD 0)) ∧
    (∀ g, 1 ≤ g → ∃ q, net.tick σ g = some q ∧
      q.2.generation = net.generation + g ∧
      (∀ id ∈ q.2.cells, (q.1.get id).generation = q.2.generation)) := by
  obtain ⟨σ2, htick, hsz, hforall, hmap, hWF⟩ := net.tickOnce_spec σ h
  refine ⟨h.2.2.1, ?_, ?_⟩
  · intro p hp
    rw [htick] at hp
    obtain rfl : (σ2, (⟨List.range' σ.size net.cells.length,
        net.generation + 1⟩ : CellNet)) = p := Option.some_injective _ hp
    refine ⟨rfl, ?_, hmap⟩
    intro id hid
    obtain ⟨⟨k, hk⟩, hki⟩ := List.mem_iff_get.mp hid
    refine ⟨σ.size + k, ?_⟩
    show (σ2.get id).descendant = some (σ.size + k)
    rw [← hki, (hforall k hk).1]
  · intro g hg
    obtain ⟨q, hq, hgenq, hWFq⟩ := CellNet.tick_spec g net σ h
    exact ⟨q, hq, hgenq, hWFq.2.2.1⟩

/-- C4 witness: the triangle scenario instantiates the theorem. -/
theorem tick_generation_invariants_witness :
    (∀ id ∈ triangleBuild.2.cells,
      (triangleBuild.1.get id).generation = triangleBuild.2.generation) ∧
    (∀ p, triangleBuild.2.tickOnce triangleBuild.1 = some p →
      p.2.generation = triangleBuild.2.generation + 1 ∧
      (∀ id ∈ triangleBuild.2.cells, ∃ d, (p.1.get id).descendant = some d) ∧
      p.2.cells = triangleBuild.2.cells.map
        (fun id => ((p.1.get id).descendant).getD 0)) ∧
    (∀ g, 1 ≤ g → ∃ q, triangleBuild.2.tick triangleBuild.1 g = some q ∧
      q.2.generation = triangleBuild.2.generation + g ∧
      (∀ id ∈ q.2.cells, (q.1.get id).generation = q.2.generation)) :=
  tick_generation_invariants triangleBuild.2 triangleBuild.1
    (by unfold CellNet.WF; decide)

-- Claims about clone (C7, C8) ------------------------------------------------

/-- C7: for every valid cell whose descendant is not yet set,
`clone(newIdentity?)` returns a new cell with generation one higher,
ancestor pointing back, no descendant, state copied, neighbors empty, and
identity inherited unless overridden; its only side effect is setting the
source cell's `descendant` to the returned cell, every other cell being
untouched. -/

theorem clone_contract (σ : Store) (cid : CellId) (ident : Option String)
    (hc : cid < σ.size) (hd : (σ.get cid).descendant = none) :
    (clone σ cid ident).1.get (clone σ cid ident).2 =
      { identity := ident.getD (σ.get cid).identity
        state := (σ.get cid).state
        generation := (σ.get cid).generation + 1
        neighbors := []
        ancestor := some cid
        descendant := none } ∧
    (clone σ cid ident).1.get cid =
      { σ.get cid with descendant := some (clone σ cid ident).2 } ∧
    (∀ j, j < σ.size → j ≠ cid → (clone σ cid ident).1.get j = σ.get j) := by
  rw [clone_id]
  exact ⟨clone_get_new .., clone_get_old _ _ _ hc,
    fun j hj hne => clone_get_other _ _ _ _ hj hne⟩

/-- C7 witness: cloning cell 0 of the triangle store instantiates the
theorem. -/

theorem clone_contract_witness :
    (clone triangleBuild.1 0 none).1.get (clone triangleBuild.1 0 none).2 =
      { identity := (none : Option String).getD (triangleBuild.1.get 0).identity
        state := (triangleBuild.1.get 0).state
        generation := (triangleBuild.1.get 0).generation + 1
        neighbors := []
        ancestor := some 0
        descendant := none } ∧
    (clone triangleBuild.1 0 none).1.get 0 =
      { triangleBuild.1.get 0 with
        descendant := some (clone triangleBuild.1 0 none).2 } ∧
    (∀ j, j < triangleBuild.1.size → j ≠ 0 →
      (clone triangleBuild.1 0 none).1.get j = triangleBuild.1.get j) :=
  clone_contract triangleBuild.1 0 none (by decide) (by decide)

/-- A one-cell store holding a fresh BaseCell-like cell, as in
`testCell.py::setUp`. -/

theorem clone_second_overwrites_cex :
    (((clone singleCellStore 0 none).1.get 0).descendant = some 1) ∧
    (((clone (clone singleCellStore 0 none).1 0 none).1.get 0).descendant =
      some 2) := by
  decide

/-- C8 amended: deriving from an already-retired valid cell is silently
accepted — `clone` always succeeds and relinks `descendant` to the newest
clone, losing the previous link. -/

theorem clone_second_overwrites (σ : Store) (cid : CellId) (d : CellId)
    (hc : cid < σ.size) (hd : (σ.get cid).descendant = some d) :
    ((clone σ cid none).1.get cid).descendant = some (clone σ cid none).2 := by
  rw [clone_get_old _ _ _ hc, clone_id]

/-- C8 amended witness: a cell that already has descendant `some 1` is
recloned; the link now reads `some 2`. -/

theorem clone_second_overwrites_witness :
    ((clone (clone singleCellStore 0 none).1 0 none).1.get 0).descendant =
      some (clone (clone singleCellStore 0 none).1 0 none).2 :=
  clone_second_overwrites _ 0 1 (by decide) (by decide)

-- CellGrid -------------------------------------------------------------------

/-- Embedding of `CellGrid` (cellNet.py lines 88-122): a CellNet whose population is a
`rows x cols` rectangular 2-D array of cells. -/

-- fromList / toList lemmas ---------------------------------------------------

theorem listPop_concat {α : Type} (l : List α) (y : α) :
    listPop (l ++ [y]) = some (l, y) := by
  simp [listPop]

theorem popRow_reverse (n : Nat) : ∀ ys : List CellId, n ≤ ys.length →
    popRow ys.reverse n = some ((ys.drop n).reverse, ys.take n) := by
  induction n with
  | zero => intro ys h; simp [popRow]
  | succ n ih =>
    intro ys h
    cases ys with
    | nil => simp at h
    | cons y t =>
      show popRow (y :: t).reverse (n + 1) = _
      unfold popRow
      simp [listPop_concat, ih t (by simpa using Nat.le_of_succ_le_succ h)]

theorem popRow_none_of_short (n : Nat) : ∀ l : List CellId, l.length < n →
    popRow l n = none := by
  induction n with
  | zero => intro l h; simp at h
  | succ n ih =>
    intro l h
    cases hrev : l.reverse with
    | nil =>
      have : l = [] := by simpa using congrArg List.reverse hrev
      subst this
      rfl
    | cons x rest =>
      have hl : l = (x :: rest).reverse := by rw [← hrev, List.reverse_reverse]
      subst hl
      unfold popRow
      simp [listPop_concat, ih rest.reverse (by simp at h ⊢; omega)]

theorem popGrid_reverse (r : Nat) : ∀ (cols : Nat) (ys : List CellId),
    r * cols ≤ ys.length →
    popGrid ys.reverse r cols =
      some ((ys.drop (r * cols)).reverse, chunks r cols ys) := by
  induction r with
  | zero => intro cols ys h; simp [popGrid, chunks]
  | succ r ih =>
    intro cols ys h
    rw [Nat.succ_mul] at h
    have hcols : cols ≤ ys.length :=
      Nat.le_trans (Nat.le_add_left cols (r * cols)) h
    have hrest : r * cols ≤ (ys.drop cols).length := by
      rw [List.length_drop]
      exact Nat.le_sub_of_add_le h
    unfold popGrid
    simp only [popRow_reverse cols ys hcols, ih cols (ys.drop cols) hrest]
    rw [List.drop_drop]
    have hmul : cols + r * cols = (r + 1) * cols := by
      rw [Nat.succ_mul]
      omega
    rw [hmul]
    rfl

theorem popGrid_none_of_short (r : Nat) : ∀ (cols : Nat) (ys : List CellId),
    ys.length < r * cols →
    popGrid ys.reverse r cols = none := by
  induction r with
  | zero => intro cols ys h; simp at h
  | succ r ih =>
    intro cols ys h
    rw [Nat.succ_mul] at h
    rcases Nat.lt_or_ge ys.length cols with hlt | hge
    · unfold popGrid
      simp [popRow_none_of_short cols ys.reverse (by simpa using hlt)]
    · have hrest : (ys.drop cols).length < r * cols := by
        rw [List.length_drop]
        omega
      unfold popGrid
      simp [popRow_reverse cols ys hge, ih cols (ys.drop cols) hrest]

theorem fromList_eq_some (g : CellGrid) (lst : List CellId)
    (h : g.rows * g.cols ≤ lst.length) :
    g.fromList lst =
      some (chunks g.rows g.cols lst, (lst.drop (g.rows * g.cols)).reverse) := by
  unfold CellGrid.fromList
  rw [popGrid_reverse g.rows g.cols lst h]

theorem fromList_eq_none (g : CellGrid) (lst : List CellId)
    (h : lst.length < g.rows * g.cols) :
    g.fromList lst = none := by
  unfold CellGrid.fromList
  rw [popGrid_none_of_short g.rows g.cols lst h]

theorem map_getD_range {α : Type} (l : List α) (d : α) :
    (List.range l.length).map (fun i => l.getD i d) = l := by
  induction l with
  | nil => rfl
  | cons a t ih =>
    rw [List.length_cons, List.range_succ_eq_map, List.map_cons, List.map_map]
    have hcomp : ((fun i => (a :: t).getD i d) ∘ Nat.succ) =
        fun i => t.getD i d := rfl
    rw [hcomp, ih]
    rfl

theorem toList_eq_flatten (g : CellGrid) (hr : g.cells.length = g.rows)
    (hc : ∀ r ∈ g.cells, r.length = g.cols) :
    g.toList = g.cells.flatten := by
  unfold CellGrid.toList
  have houter : (List.range g.rows).map (fun row =>
      (List.range g.cols).map (fun col => cellAt g row col)) =
      (List.range g.rows).map (fun row => g.cells.getD row []) := by
    apply List.map_congr_left
    intro row hrow
    have hrowlt : row < g.cells.length := by
      rw [hr]; exact List.mem_range.mp hrow
    have hmem : g.cells.getD row [] ∈ g.cells := by
      rw [List.getD_eq_getElem _ _ hrowlt]
      exact List.getElem_mem ..
    have hlen : (g.cells.getD row []).length = g.cols := hc _ hmem
    show (List.range g.cols).map (fun col => (g.cells.getD row []).getD col 0) = _
    rw [← hlen]
    exact map_getD_range (g.cells.getD row []) 0
  rw [houter, ← hr, map_getD_range g.cells []]

theorem chunks_flatten (cols : Nat) : ∀ cells : List (List CellId),
    (∀ r ∈ cells, r.length = cols) →
    chunks cells.length cols cells.flatten = cells := by
  intro cells
  induction cells with
  | nil => intro _; rfl
  | cons r rs ih =>
    intro h
    have hrl : r.length = cols := h r (List.mem_cons_self ..)
    show chunks (rs.length + 1) cols (r :: rs).flatten = r :: rs
    rw [List.flatten_cons]
    unfold chunks
    rw [List.take_left' hrl, List.drop_left' hrl,
      ih (fun x hx => h x (List.mem_cons_of_mem _ hx))]

theorem length_flatten_const (cols : Nat) : ∀ cells : List (List CellId),
    (∀ r ∈ cells, r.length = cols) →
    cells.flatten.length = cells.length * cols := by
  intro cells
  induction cells with
  | nil => intro _; simp
  | cons r rs ih =>
    intro h
    have hrl : r.length = cols := h r (List.mem_cons_self ..)
    rw [List.flatten_cons, List.length_append, hrl,
      ih (fun x hx => h x (List.mem_cons_of_mem _ hx)),
      List.length_cons, Nat.succ_mul]
    omega

theorem fromList_toList_roundtrip (g : CellGrid)
    (hr : g.cells.length = g.rows) (hc : ∀ r ∈ g.cells, r.length = g.cols) :
    g.fromList g.toList = some (g.cells, []) := by
  have hflat := toList_eq_flatten g hr hc
  have hlen : g.toList.length = g.rows * g.cols := by
    rw [hflat, length_flatten_const g.cols g.cells hc, hr]
  rw [fromList_eq_some g g.toList (le_of_eq hlen.symm), hflat]
  have hch : chunks g.rows g.cols g.cells.flatten = g.cells := by
    rw [← hr]
    exact chunks_flatten g.cols g.cells hc
  have hdp : g.cells.flatten.drop (g.rows * g.cols) = [] := by
    apply List.drop_eq_nil_of_le
    rw [length_flatten_const g.cols g.cells hc, hr]
  rw [hch, hdp]
  rfl

/-- C5 witness: the constructed 3x3 grid instantiates the round trip. -/
theorem fromList_toList_roundtrip_witness :
    grid3.2.fromList grid3.2.toList = some (grid3.2.cells, []) :=
  fromList_toList_roundtrip grid3.2 (by decide) (by decide)

/-- C6: membership in the neighbor-position list computed by
`setupNeighbors` is exactly "in bounds, not the cell itself, within Chebyshev
distance 1" (the 8 compass offsets clipped at the edges, no wraparound);
and on the constructed 3x3 grid the stored neighbor lists realize those
positions, giving the center cell 8 neighbors, each corner 3, and each
edge-non-corner cell 5. -/

theorem setupNeighbors_moore :
    (∀ rows cols row col r c : Nat, row < rows → col < cols →
      ((r, c) ∈ gridNeighborPositions rows cols row col ↔
        (r < rows ∧ c < cols ∧ ¬(r = row ∧ c = col) ∧
         r ≤ row + 1 ∧ row ≤ r + 1 ∧ c ≤ col + 1 ∧ col ≤ c + 1))) ∧
    (∀ row, row < 3 → ∀ col, col < 3 →
      (grid3.1.get (cellAt grid3.2 row col)).neighbors =
        (gridNeighborPositions 3 3 row col).map
          (fun q => cellAt grid3.2 q.1 q.2)) ∧
    ((grid3.1.get (cellAt grid3.2 1 1)).neighbors.length = 8 ∧
     (∀ p ∈ [(0, 0), (0, 2), (2, 0), (2, 2)],
       (grid3.1.get (cellAt grid3.2 p.1 p.2)).neighbors.length = 3) ∧
     (∀ p ∈ [(0, 1), (1, 0), (1, 2), (2, 1)],
       (grid3.1.get (cellAt grid3.2 p.1 p.2)).neighbors.length = 5)) := by
  refine ⟨?_, by decide, by decide⟩
  intro rows cols row col r c hrow hcol
  by_cases h1 : row > 0 <;> by_cases h2 : col > 0 <;>
    by_cases h3 : col < cols - 1 <;> by_cases h4 : row < rows - 1 <;>
    simp [gridNeighborPositions, List.mem_filterMap, h1, h2, h3, h4,
      Prod.ext_iff] <;>
    omega

/-- C6 witness: the position characterization instantiated at the 3x3
center cell and candidate (0, 0). -/

theorem setupNeighbors_moore_witness :
    (0, 0) ∈ gridNeighborPositions 3 3 1 1 ↔
      (0 < 3 ∧ 0 < 3 ∧ ¬(0 = 1 ∧ 0 = 1) ∧
       0 ≤ 1 + 1 ∧ 1 ≤ 0 + 1 ∧ 0 ≤ 1 + 1 ∧ 1 ≤ 0 + 1) :=
  setupNeighbors_moore.1 3 3 1 1 0 0 (by decide) (by decide)

/-- C9 counterexample: a flattened list that is TOO LONG for the shape is
not rejected — `fromList` on a 1x1 grid fed two cells succeeds, uses the
first cell, and silently leaves the excess behind. -/

theorem fromList_excess_cex :
    [10, 11].length ≠ g11.rows * g11.cols ∧
    g11.fromList [10, 11] = some ([[10]], [11]) := by
  decide

/-- C9 amended: `fromList` aborts with an immediate failure exactly when
the flattened list has FEWER than `rows * cols` cells (the `IndexError`
from popping an exhausted list); a list with too many cells is accepted,
the extras silently dropped. -/

theorem fromList_abort_iff (g : CellGrid) (lst : List CellId) :
    g.fromList lst = none ↔ lst.length < g.rows * g.cols := by
  constructor
  · intro hnone
    by_contra hge
    rw [fromList_eq_some g lst (Nat.le_of_not_lt hge)] at hnone
    exact Option.noConfusion hnone
  · exact fromList_eq_none g lst

/-- C10: `fromList` destructively consumes its argument — fed exactly
`rows * cols` cells, it succeeds and the argument list ends up empty. -/

theorem fromList_consumes_argument (g : CellGrid) (lst : List CellId)
    (h : lst.length = g.rows * g.cols) :
    ∃ cs, g.fromList lst = some (cs, []) := by
  refine ⟨chunks g.rows g.cols lst, ?_⟩
  rw [fromList_eq_some g lst (le_of_eq h.symm),
    List.drop_eq_nil_of_le (le_of_eq h)]
  rfl

/-- C10 witness: the 1x1 grid fed one cell. -/
theorem fromList_consumes_argument_witness :
    ∃ cs, g11.fromList [7] = some (cs, []) :=
  fromList_consumes_argument g11 [7] (by decide)
